import Mathlib

/-!
Verification development for the NeurADP ride-pooling Assignment & Routing
Engine (`src/Environment.py`).  The Python classes `Request`, `RequestInfo`,
`PathNode`, `Path` and `LearningAgent` are imported by `Environment.py` from
modules that are not part of the given sources; their fields and operations
are modelled from the specification (section 3 and 4.1) and marked as such.
All times are modelled as rationals, occupancies as integers.
-/

namespace NeurADP

/-- Modelled from the spec: a `Request` is an immutable value with source,
destination, creation time and travel time (`Request.py` is not among the
sources; `Environment.py` constructs `Request(source, destination,
current_time, travel_time)`). -/
structure Request where
  source : Nat
  destination : Nat
  creation_time : ℚ
  travel_time : ℚ
deriving DecidableEq

/-- Modelled from the spec: the pickup location of a request is its source
zone (`_get_rebalance_targets` reads `target.pickup`). -/
def Request.pickup (r : Request) : Nat := r.source

/-- Modelled from the spec: `RequestInfo` pairs a `Request` with a flag
distinguishing real committed requests from synthetic rebalancing targets
(`simulate_motion` constructs `RequestInfo(target, False)`). -/
structure RequestInfo where
  request : Request
  assigned : Bool
deriving DecidableEq

/-- A single stop of a vehicle's plan.  `Path.py` is not among the sources:
per spec section 4.1, `get_info(node)` returns the node's target location and
deadline, which we therefore model as node-attached data (`location`,
`deadline`).  `expected_visit_time` and `current_capacity` are the mutable
bookkeeping fields rewritten by the validator. -/
structure PathNode where
  is_dropoff : Bool
  location : Nat
  deadline : ℚ
  expected_visit_time : ℚ
  current_capacity : Int
deriving DecidableEq

def defaultPathNode : PathNode :=
  { is_dropoff := false, location := 0, deadline := 0
    expected_visit_time := 0, current_capacity := 0 }

/-- The mutable path of a vehicle: the ordered visit list `request_order`,
the parallel `requests` list, the declared occupancy `current_capacity` at
the vehicle's current position, and the derived `total_delay`.  The result
of `is_complete()` is modelled from the spec as a field (`complete`), since
`Path.py` is not among the sources. -/
structure Path where
  request_order : List PathNode
  requests : List RequestInfo
  current_capacity : Int
  total_delay : ℚ
  complete : Bool
deriving DecidableEq

/-- Modelled from the spec: `is_complete()` — every `RequestInfo` has had
both of its stops visited. -/
def Path.is_complete (p : Path) : Bool := p.complete

/-- Modelled from the spec: `is_empty()` — the visit order is exhausted. -/
def Path.is_empty (p : Path) : Bool := p.request_order.isEmpty

/-- Modelled from the spec: location of the head node, or none if empty. -/
def Path.get_next_location (p : Path) : Option Nat :=
  p.request_order.head?.map fun n => n.location

/-- Modelled from the spec: `visit_next_location()` pops the head node. -/
def Path.visit_next_location (p : Path) : Path :=
  { p with request_order := p.request_order.tail }

/-- A vehicle's physical position: the next intersection it will reach and
the remaining time to reach it. -/
structure Position where
  next_location : Nat
  time_to_next_location : ℚ
deriving DecidableEq

/-- Modelled from the spec: the fields of `LearningAgent` used by
`Environment.py` (`LearningAgent.py` is not among the sources). -/
structure LearningAgent where
  id : Nat
  position : Position
  path : Path
deriving DecidableEq

/-- The environment context used by `Environment.py`: the travel-time and
shortest-path oracles (opaque lookup tables in the source), the capacity
bound, the running clock and the epoch length. -/
structure Envt where
  travel_time : Nat → Nat → ℚ
  shortest_path : Nat → Nat → Nat
  ignored_zones : Nat → Bool
  MAX_CAPACITY : Int
  current_time : ℚ
  EPOCH_LENGTH : ℚ

/-- Result of `NYEnvironment.has_valid_path`.  The Python function returns
a bare `False` after printing a trace; the constructors record which trace
was printed ('Incomplete path.', 'Does not meet deadline at node i',
'Exceeds MAX_CAPACITY at node i'). -/
inductive ValidationResult where
  | ok : ValidationResult
  | incompletePath : ValidationResult
  | deadlineViolation : Nat → ValidationResult
  | capacityOverflow : Nat → ValidationResult
deriving DecidableEq

/-- The body of the `for node_idx, node in enumerate(...)` loop of
`has_valid_path` (Environment.py lines 277-307), with the in-place node
mutations made explicit: the returned list is the request order as left
behind by the (possibly failing) loop, the returned rational is
`available_delay`.  Every `if x != v: x = v` fix-up of the source is kept
as a conditional update. -/
def validateLoop (e : Envt) :
    Nat → ℚ → Nat → Int → ℚ → List PathNode → ValidationResult × List PathNode × ℚ
  | _, _, _, _, available_delay, [] => (.ok, [], available_delay)
  | node_idx, current_time, current_location, current_capacity, available_delay,
      node :: rest =>
    let travel_time := e.travel_time current_location node.location
    if current_time + travel_time > node.deadline then
      (.deadlineViolation node_idx, node :: rest, available_delay)
    else
      let t := current_time + travel_time
      let node1 :=
        if node.expected_visit_time = t then node
        else { node with expected_visit_time := t }
      let delay1 :=
        if node1.is_dropoff then available_delay + (node.deadline - node1.expected_visit_time)
        else available_delay
      if current_capacity > e.MAX_CAPACITY then
        (.capacityOverflow node_idx, node1 :: rest, delay1)
      else
        let next_capacity :=
          if node1.is_dropoff then current_capacity - 1 else current_capacity + 1
        let node2 :=
          if node1.current_capacity = next_capacity then node1
          else { node1 with current_capacity := next_capacity }
        let r := validateLoop e (node_idx + 1) t node2.location node2.current_capacity delay1 rest
        (r.1, node2 :: r.2.1, r.2.2)

/-- `NYEnvironment.has_valid_path` (Environment.py lines 256-310).  The
Python function mutates `agent` in place and returns a boolean; we return
the result together with the post-call agent.  `total_delay` is written
only on success (line 309). -/
def has_valid_path (e : Envt) (agent : LearningAgent) : ValidationResult × LearningAgent :=
  if agent.path.is_complete = false then (.incompletePath, agent)
  else
    let r := validateLoop e 0 (e.current_time + agent.position.time_to_next_location)
      agent.position.next_location agent.path.current_capacity 0 agent.path.request_order
    match r.1 with
    | .ok =>
      (.ok, { agent with path :=
        { agent.path with request_order := r.2.1, total_delay := r.2.2 } })
    | res =>
      (res, { agent with path := { agent.path with request_order := r.2.1 } })

/-! Specification-side functions: computed arrival times, running occupancy,
the fully rewritten node list and the dropoff slack. -/

/-- The arrival times the validator computes: starting at time `t0` at
location `loc`, each node's arrival is the previous arrival plus the
oracle travel time to the node's location. -/
def arrivalList (e : Envt) : ℚ → Nat → List PathNode → List ℚ
  | _, _, [] => []
  | t0, loc, node :: rest =>
    (t0 + e.travel_time loc node.location) ::
      arrivalList e (t0 + e.travel_time loc node.location) node.location rest

/-- Occupancy delta of a node: -1 for a dropoff, +1 for a pickup. -/
def nodeDelta (n : PathNode) : Int := if n.is_dropoff then -1 else 1

/-- Running occupancy before the `i`-th node's delta is applied: the path's
declared starting occupancy plus the deltas of the first `i` nodes. -/
def occBefore (c0 : Int) (ns : List PathNode) (i : Nat) : Int :=
  c0 + ((ns.take i).map nodeDelta).sum

/-- The node list as rewritten by a fully successful validation pass:
each node's `expected_visit_time` becomes its computed arrival time and its
`current_capacity` becomes the running occupancy after its delta. -/
def updatedNodes (e : Envt) : ℚ → Nat → Int → List PathNode → List PathNode
  | _, _, _, [] => []
  | t0, loc, c0, node :: rest =>
    { node with
        expected_visit_time := t0 + e.travel_time loc node.location,
        current_capacity := c0 + nodeDelta node } ::
      updatedNodes e (t0 + e.travel_time loc node.location) node.location
        (c0 + nodeDelta node) rest

/-- Total slack accumulated by a successful pass: for each dropoff node,
its deadline minus its computed arrival time. -/
def delaySpec (e : Envt) : ℚ → Nat → List PathNode → ℚ
  | _, _, [] => 0
  | t0, loc, node :: rest =>
    (if node.is_dropoff then node.deadline - (t0 + e.travel_time loc node.location) else 0) +
      delaySpec e (t0 + e.travel_time loc node.location) node.location rest

/-- The claim's formulation of total delay: sum over dropoff nodes of
(deadline minus computed arrival time), with arrivals given as a list. -/
def dropoffSlack (ns : List PathNode) (arrs : List ℚ) : ℚ :=
  ((ns.zip arrs).map fun p => if p.1.is_dropoff then p.1.deadline - p.2 else 0).sum

/-- The time at which the agent reaches its next intersection, where the
validator's walk starts. -/
def startTime (e : Envt) (a : LearningAgent) : ℚ :=
  e.current_time + a.position.time_to_next_location

/-- Arrival times of an agent's path as computed by the validator: start at
`current_time + time_to_next_location` from the agent's next intersection. -/
def agentArrivals (e : Envt) (a : LearningAgent) : List ℚ :=
  arrivalList e (startTime e a) a.position.next_location a.path.request_order

/-- Running occupancy of an agent's path before the `i`-th node's delta. -/
def agentOcc (a : LearningAgent) (i : Nat) : Int :=
  occBefore a.path.current_capacity a.path.request_order i

/-- Deadline of the `j`-th node of a visit order. -/
def pathDeadline (ns : List PathNode) (j : Nat) : ℚ :=
  (ns.getD j defaultPathNode).deadline

/-- Arrival time at the `j`-th node of an agent's path. -/
def arrAt (e : Envt) (a : LearningAgent) (j : Nat) : ℚ :=
  (agentArrivals e a).getD j 0

/-- Node `j` passes both of the validator's checks: its computed arrival
time is at most its deadline, and the occupancy before its delta is at most
`MAX_CAPACITY`. -/
abbrev goodAt (e : Envt) (t0 : ℚ) (loc : Nat) (c0 : Int) (ns : List PathNode) (j : Nat) : Prop :=
  (arrivalList e t0 loc ns).getD j 0 ≤ (ns.getD j defaultPathNode).deadline ∧
    occBefore c0 ns j ≤ e.MAX_CAPACITY

theorem evt_if (n : PathNode) (t : ℚ) :
    (if n.expected_visit_time = t then n else { n with expected_visit_time := t }) =
      { n with expected_visit_time := t } := by
  split
  · next h => cases n; dsimp only at h; subst h; rfl
  · rfl

theorem cap_if (n : PathNode) (t : ℚ) (c : Int) :
    (if n.current_capacity = c then { n with expected_visit_time := t }
     else { n with expected_visit_time := t, current_capacity := c }) =
      { n with expected_visit_time := t, current_capacity := c } := by
  split
  · next h => cases n; dsimp only at h; subst h; rfl
  · rfl

theorem delta_if (c0 : Int) (n : PathNode) :
    (if n.is_dropoff then c0 - 1 else c0 + 1) = c0 + nodeDelta n := by
  unfold nodeDelta; split <;> ring

theorem validateLoop_nil (e : Envt) (idx : Nat) (t0 : ℚ) (loc : Nat) (c0 : Int) (d0 : ℚ) :
    validateLoop e idx t0 loc c0 d0 [] = (.ok, [], d0) := rfl

theorem validateLoop_cons (e : Envt) (idx : Nat) (t0 : ℚ) (loc : Nat) (c0 : Int) (d0 : ℚ)
    (node : PathNode) (rest : List PathNode) :
    validateLoop e idx t0 loc c0 d0 (node :: rest) =
      if t0 + e.travel_time loc node.location > node.deadline then
        (.deadlineViolation idx, node :: rest, d0)
      else if c0 > e.MAX_CAPACITY then
        (.capacityOverflow idx,
          { node with expected_visit_time := t0 + e.travel_time loc node.location } :: rest,
          if node.is_dropoff then
            d0 + (node.deadline - (t0 + e.travel_time loc node.location))
          else d0)
      else
        ((validateLoop e (idx + 1) (t0 + e.travel_time loc node.location) node.location
            (c0 + nodeDelta node)
            (if node.is_dropoff then
              d0 + (node.deadline - (t0 + e.travel_time loc node.location))
            else d0) rest).1,
          { node with expected_visit_time := t0 + e.travel_time loc node.location,
                      current_capacity := c0 + nodeDelta node } ::
            (validateLoop e (idx + 1) (t0 + e.travel_time loc node.location) node.location
              (c0 + nodeDelta node)
              (if node.is_dropoff then
                d0 + (node.deadline - (t0 + e.travel_time loc node.location))
              else d0) rest).2.1,
          (validateLoop e (idx + 1) (t0 + e.travel_time loc node.location) node.location
            (c0 + nodeDelta node)
            (if node.is_dropoff then
              d0 + (node.deadline - (t0 + e.travel_time loc node.location))
            else d0) rest).2.2) := by
  rw [validateLoop]
  split
  · rfl
  · simp only [evt_if, cap_if, delta_if]

theorem arrivalList_cons (e : Envt) (t0 : ℚ) (loc : Nat) (node : PathNode) (rest : List PathNode) :
    arrivalList e t0 loc (node :: rest) =
      (t0 + e.travel_time loc node.location) ::
        arrivalList e (t0 + e.travel_time loc node.location) node.location rest := rfl

theorem occBefore_zero (c0 : Int) (ns : List PathNode) : occBefore c0 ns 0 = c0 := by
  simp [occBefore]

theorem occBefore_succ_cons (c0 : Int) (n : PathNode) (ns : List PathNode) (j : Nat) :
    occBefore c0 (n :: ns) (j + 1) = occBefore (c0 + nodeDelta n) ns j := by
  simp only [occBefore, List.take_succ_cons, List.map_cons, List.sum_cons]
  ring

theorem goodAt_zero_cons (e : Envt) (t0 : ℚ) (loc : Nat) (c0 : Int) (n : PathNode)
    (ns : List PathNode) :
    goodAt e t0 loc c0 (n :: ns) 0 ↔
      (t0 + e.travel_time loc n.location ≤ n.deadline ∧ c0 ≤ e.MAX_CAPACITY) := by
  simp [goodAt, arrivalList_cons, occBefore_zero]

theorem goodAt_succ_cons (e : Envt) (t0 : ℚ) (loc : Nat) (c0 : Int) (n : PathNode)
    (ns : List PathNode) (j : Nat) :
    goodAt e t0 loc c0 (n :: ns) (j + 1) ↔
      goodAt e (t0 + e.travel_time loc n.location) n.location (c0 + nodeDelta n) ns j := by
  simp [goodAt, arrivalList_cons, occBefore_succ_cons]

/-- Any failure reported by the loop carries an index at least the starting
enumeration index. -/
theorem validateLoop_idx_le (e : Envt) (ns : List PathNode) :
    ∀ idx t0 loc c0 d0 m,
      ((validateLoop e idx t0 loc c0 d0 ns).1 = .deadlineViolation m ∨
        (validateLoop e idx t0 loc c0 d0 ns).1 = .capacityOverflow m) → idx ≤ m := by
  induction ns with
  | nil => intro idx t0 loc c0 d0 m h; simp [validateLoop_nil] at h
  | cons node rest ih =>
    intro idx t0 loc c0 d0 m h
    rw [validateLoop_cons] at h
    by_cases hd : t0 + e.travel_time loc node.location > node.deadline
    · simp [hd] at h; omega
    · by_cases hc : c0 > e.MAX_CAPACITY
      · simp [hd, hc] at h; omega
      · simp only [if_neg hd, if_neg hc] at h
        have := ih (idx + 1) (t0 + e.travel_time loc node.location) node.location
          (c0 + nodeDelta node)
          (if node.is_dropoff then
            d0 + (node.deadline - (t0 + e.travel_time loc node.location)) else d0) m h
        omega

/-- The loop succeeds iff every node passes both checks. -/
theorem validateLoop_ok_iff (e : Envt) (ns : List PathNode) :
    ∀ idx t0 loc c0 d0,
      ((validateLoop e idx t0 loc c0 d0 ns).1 = .ok ↔
        ∀ j < ns.length, goodAt e t0 loc c0 ns j) := by
  induction ns with
  | nil => intro idx t0 loc c0 d0; simp [validateLoop_nil]
  | cons node rest ih =>
    intro idx t0 loc c0 d0
    rw [validateLoop_cons]
    by_cases hd : t0 + e.travel_time loc node.location > node.deadline
    · simp only [if_pos hd]
      apply iff_of_false
      · simp
      · intro h
        have h0 := (goodAt_zero_cons e t0 loc c0 node rest).mp (h 0 (by simp))
        exact absurd hd (not_lt.mpr h0.1)
    · by_cases hc : c0 > e.MAX_CAPACITY
      · simp only [if_neg hd, if_pos hc]
        apply iff_of_false
        · simp
        · intro h
          have h0 := (goodAt_zero_cons e t0 loc c0 node rest).mp (h 0 (by simp))
          exact absurd hc (not_lt.mpr h0.2)
      · simp only [if_neg hd, if_neg hc]
        rw [ih]
        constructor
        · intro h j hj
          match j with
          | 0 => exact (goodAt_zero_cons e t0 loc c0 node rest).mpr ⟨not_lt.mp hd, not_lt.mp hc⟩
          | j + 1 =>
            rw [goodAt_succ_cons]
            exact h j (by simp at hj; omega)
        · intro h j hj
          rw [← goodAt_succ_cons]
          exact h (j + 1) (by simp; omega)

/-- On success the loop rewrites every node's bookkeeping fields and returns
the accumulated slack. -/
theorem validateLoop_ok_out (e : Envt) (ns : List PathNode) :
    ∀ idx t0 loc c0 d0,
      (validateLoop e idx t0 loc c0 d0 ns).1 = .ok →
      validateLoop e idx t0 loc c0 d0 ns =
        (.ok, updatedNodes e t0 loc c0 ns, d0 + delaySpec e t0 loc ns) := by
  induction ns with
  | nil => intro idx t0 loc c0 d0 _; simp [validateLoop_nil, updatedNodes, delaySpec]
  | cons node rest ih =>
    intro idx t0 loc c0 d0 h
    rw [validateLoop_cons] at h ⊢
    by_cases hd : t0 + e.travel_time loc node.location > node.deadline
    · simp [hd] at h
    · by_cases hc : c0 > e.MAX_CAPACITY
      · simp [hd, hc] at h
      · simp only [if_neg hd, if_neg hc] at h ⊢
        have hrec := ih (idx + 1) (t0 + e.travel_time loc node.location) node.location
          (c0 + nodeDelta node)
          (if node.is_dropoff then
            d0 + (node.deadline - (t0 + e.travel_time loc node.location)) else d0) h
        rw [hrec]
        have hdel :
            (if node.is_dropoff then
              d0 + (node.deadline - (t0 + e.travel_time loc node.location)) else d0) +
              delaySpec e (t0 + e.travel_time loc node.location) node.location rest =
            d0 + delaySpec e t0 loc (node :: rest) := by
          by_cases hdrop : node.is_dropoff
          · simp [delaySpec, hdrop]; ring
          · simp [delaySpec, hdrop]
        rw [hdel]
        rfl

/-- The loop reports a deadline violation at absolute index `idx + k` iff
node `k` is the first node failing a check and it fails the deadline
check. -/
theorem validateLoop_dl_iff (e : Envt) (ns : List PathNode) :
    ∀ idx t0 loc c0 d0 k,
      ((validateLoop e idx t0 loc c0 d0 ns).1 = .deadlineViolation (idx + k) ↔
        (k < ns.length ∧ (∀ j < k, goodAt e t0 loc c0 ns j) ∧
          (ns.getD k defaultPathNode).deadline < (arrivalList e t0 loc ns).getD k 0)) := by
  induction ns with
  | nil => intro idx t0 loc c0 d0 k; simp [validateLoop_nil]
  | cons node rest ih =>
    intro idx t0 loc c0 d0 k
    rw [validateLoop_cons]
    by_cases hd : t0 + e.travel_time loc node.location > node.deadline
    · simp only [if_pos hd]
      cases k with
      | zero => simp [arrivalList_cons, hd]
      | succ k =>
        apply iff_of_false
        · simp
        · rintro ⟨-, hgood, -⟩
          have h0 := (goodAt_zero_cons e t0 loc c0 node rest).mp (hgood 0 (by omega))
          exact absurd hd (not_lt.mpr h0.1)
    · by_cases hc : c0 > e.MAX_CAPACITY
      · simp only [if_neg hd, if_pos hc]
        apply iff_of_false
        · simp
        · cases k with
          | zero =>
            rintro ⟨-, -, hddl⟩
            rw [arrivalList_cons] at hddl
            simp at hddl
            exact absurd hddl (not_lt.mpr (not_lt.mp hd))
          | succ k =>
            rintro ⟨-, hgood, -⟩
            have h0 := (goodAt_zero_cons e t0 loc c0 node rest).mp (hgood 0 (by omega))
            exact absurd hc (not_lt.mpr h0.2)
      · simp only [if_neg hd, if_neg hc]
        cases k with
        | zero =>
          apply iff_of_false
          · intro h
            have := validateLoop_idx_le e rest (idx + 1)
              (t0 + e.travel_time loc node.location) node.location (c0 + nodeDelta node)
              (if node.is_dropoff then
                d0 + (node.deadline - (t0 + e.travel_time loc node.location)) else d0)
              (idx + 0) (Or.inl h)
            omega
          · rintro ⟨-, -, hddl⟩
            rw [arrivalList_cons] at hddl
            simp at hddl
            exact absurd hddl (not_lt.mpr (not_lt.mp hd))
        | succ k =>
          rw [show idx + (k + 1) = (idx + 1) + k from by omega, ih]
          constructor
          · rintro ⟨hk, hgood, hddl⟩
            refine ⟨by simp; omega, ?_, ?_⟩
            · intro j hj
              match j with
              | 0 =>
                exact (goodAt_zero_cons e t0 loc c0 node rest).mpr
                  ⟨not_lt.mp hd, not_lt.mp hc⟩
              | j + 1 =>
                rw [goodAt_succ_cons]
                exact hgood j (by omega)
            · rw [arrivalList_cons]
              simpa using hddl
          · rintro ⟨hk, hgood, hddl⟩
            refine ⟨by simp at hk; omega, ?_, ?_⟩
            · intro j hj
              rw [← goodAt_succ_cons]
              exact hgood (j + 1) (by omega)
            · rw [arrivalList_cons] at hddl
              simpa using hddl

/-- The loop reports a capacity overflow at absolute index `idx + k` iff
node `k` is the first node failing a check, it passes the deadline check,
and the occupancy before its delta exceeds the maximum. -/
theorem validateLoop_cap_iff (e : Envt) (ns : List PathNode) :
    ∀ idx t0 loc c0 d0 k,
      ((validateLoop e idx t0 loc c0 d0 ns).1 = .capacityOverflow (idx + k) ↔
        (k < ns.length ∧ (∀ j < k, goodAt e t0 loc c0 ns j) ∧
          (arrivalList e t0 loc ns).getD k 0 ≤ (ns.getD k defaultPathNode).deadline ∧
          e.MAX_CAPACITY < occBefore c0 ns k)) := by
  induction ns with
  | nil => intro idx t0 loc c0 d0 k; simp [validateLoop_nil]
  | cons node rest ih =>
    intro idx t0 loc c0 d0 k
    rw [validateLoop_cons]
    by_cases hd : t0 + e.travel_time loc node.location > node.deadline
    · simp only [if_pos hd]
      apply iff_of_false
      · simp
      · cases k with
        | zero =>
          rintro ⟨-, -, harr, -⟩
          rw [arrivalList_cons] at harr
          simp at harr
          exact absurd hd (not_lt.mpr harr)
        | succ k =>
          rintro ⟨-, hgood, -⟩
          have h0 := (goodAt_zero_cons e t0 loc c0 node rest).mp (hgood 0 (by omega))
          exact absurd hd (not_lt.mpr h0.1)
    · by_cases hc : c0 > e.MAX_CAPACITY
      · simp only [if_neg hd, if_pos hc]
        cases k with
        | zero => simp [arrivalList_cons, occBefore_zero, not_lt.mp hd, hc]
        | succ k =>
          apply iff_of_false
          · simp
          · rintro ⟨-, hgood, -⟩
            have h0 := (goodAt_zero_cons e t0 loc c0 node rest).mp (hgood 0 (by omega))
            exact absurd hc (not_lt.mpr h0.2)
      · simp only [if_neg hd, if_neg hc]
        cases k with
        | zero =>
          apply iff_of_false
          · intro h
            have := validateLoop_idx_le e rest (idx + 1)
              (t0 + e.travel_time loc node.location) node.location (c0 + nodeDelta node)
              (if node.is_dropoff then
                d0 + (node.deadline - (t0 + e.travel_time loc node.location)) else d0)
              (idx + 0) (Or.inr h)
            omega
          · rintro ⟨-, -, -, hocc⟩
            rw [occBefore_zero] at hocc
            exact absurd hocc (not_lt.mpr (not_lt.mp hc))
        | succ k =>
          rw [show idx + (k + 1) = (idx + 1) + k from by omega, ih]
          constructor
          · rintro ⟨hk, hgood, harr, hocc⟩
            refine ⟨by simp; omega, ?_, ?_, ?_⟩
            · intro j hj
              match j with
              | 0 =>
                exact (goodAt_zero_cons e t0 loc c0 node rest).mpr
                  ⟨not_lt.mp hd, not_lt.mp hc⟩
              | j + 1 =>
                rw [goodAt_succ_cons]
                exact hgood j (by omega)
            · rw [arrivalList_cons]
              simpa using harr
            · rw [occBefore_succ_cons]
              exact hocc
          · rintro ⟨hk, hgood, harr, hocc⟩
            refine ⟨by simp at hk; omega, ?_, ?_, ?_⟩
            · intro j hj
              rw [← goodAt_succ_cons]
              exact hgood (j + 1) (by omega)
            · rw [arrivalList_cons] at harr
              simpa using harr
            · rw [occBefore_succ_cons] at hocc
              exact hocc

/-- The loop never changes the number of nodes. -/
theorem validateLoop_length (e : Envt) (ns : List PathNode) :
    ∀ idx t0 loc c0 d0, (validateLoop e idx t0 loc c0 d0 ns).2.1.length = ns.length := by
  induction ns with
  | nil => intro idx t0 loc c0 d0; simp [validateLoop_nil]
  | cons node rest ih =>
    intro idx t0 loc c0 d0
    rw [validateLoop_cons]
    by_cases hd : t0 + e.travel_time loc node.location > node.deadline
    · simp [hd]
    · by_cases hc : c0 > e.MAX_CAPACITY
      · simp [hd, hc]
      · simp only [if_neg hd, if_neg hc]
        simp [ih]

/-- On a deadline violation at `idx + k`, the nodes from position `k`
onwards are returned untouched. -/
theorem validateLoop_dl_suffix (e : Envt) (ns : List PathNode) :
    ∀ idx t0 loc c0 d0 k,
      (validateLoop e idx t0 loc c0 d0 ns).1 = .deadlineViolation (idx + k) →
      (validateLoop e idx t0 loc c0 d0 ns).2.1.drop k = ns.drop k := by
  induction ns with
  | nil => intro idx t0 loc c0 d0 k h; simp [validateLoop_nil] at h
  | cons node rest ih =>
    intro idx t0 loc c0 d0 k h
    rw [validateLoop_cons] at h ⊢
    by_cases hd : t0 + e.travel_time loc node.location > node.deadline
    · simp [hd]
    · by_cases hc : c0 > e.MAX_CAPACITY
      · simp [hd, hc] at h
      · simp only [if_neg hd, if_neg hc] at h ⊢
        cases k with
        | zero =>
          exfalso
          have := validateLoop_idx_le e rest (idx + 1)
            (t0 + e.travel_time loc node.location) node.location (c0 + nodeDelta node)
            (if node.is_dropoff then
              d0 + (node.deadline - (t0 + e.travel_time loc node.location)) else d0)
            (idx + 0) (Or.inl h)
          omega
        | succ k =>
          rw [show idx + (k + 1) = (idx + 1) + k from by omega] at h
          simpa using ih (idx + 1) (t0 + e.travel_time loc node.location) node.location
            (c0 + nodeDelta node)
            (if node.is_dropoff then
              d0 + (node.deadline - (t0 + e.travel_time loc node.location)) else d0) k h

/-- On a capacity overflow at `idx + k`, the nodes strictly after position
`k` are returned untouched, and node `k` itself differs from the input only
in its `expected_visit_time`, which has been overwritten with its computed
arrival time (the fix-up at Environment.py line 291 runs before the
capacity check at line 297 returns). -/
theorem validateLoop_cap_suffix (e : Envt) (ns : List PathNode) :
    ∀ idx t0 loc c0 d0 k,
      (validateLoop e idx t0 loc c0 d0 ns).1 = .capacityOverflow (idx + k) →
      ((validateLoop e idx t0 loc c0 d0 ns).2.1.drop (k + 1) = ns.drop (k + 1) ∧
       (validateLoop e idx t0 loc c0 d0 ns).2.1.getD k defaultPathNode =
         { ns.getD k defaultPathNode with
             expected_visit_time := (arrivalList e t0 loc ns).getD k 0 }) := by
  induction ns with
  | nil => intro idx t0 loc c0 d0 k h; simp [validateLoop_nil] at h
  | cons node rest ih =>
    intro idx t0 loc c0 d0 k h
    rw [validateLoop_cons] at h ⊢
    by_cases hd : t0 + e.travel_time loc node.location > node.deadline
    · simp [hd] at h
    · by_cases hc : c0 > e.MAX_CAPACITY
      · simp only [if_neg hd, if_pos hc] at h ⊢
        have hk : k = 0 := by
          simp only [ValidationResult.capacityOverflow.injEq] at h
          omega
        subst hk
        constructor
        · simp
        · simp [arrivalList_cons]
      · simp only [if_neg hd, if_neg hc] at h ⊢
        cases k with
        | zero =>
          exfalso
          have := validateLoop_idx_le e rest (idx + 1)
            (t0 + e.travel_time loc node.location) node.location (c0 + nodeDelta node)
            (if node.is_dropoff then
              d0 + (node.deadline - (t0 + e.travel_time loc node.location)) else d0)
            (idx + 0) (Or.inr h)
          omega
        | succ k =>
          rw [show idx + (k + 1) = (idx + 1) + k from by omega] at h
          have hrec := ih (idx + 1) (t0 + e.travel_time loc node.location) node.location
            (c0 + nodeDelta node)
            (if node.is_dropoff then
              d0 + (node.deadline - (t0 + e.travel_time loc node.location)) else d0) k h
          constructor
          · simpa using hrec.1
          · simpa [arrivalList_cons] using hrec.2

/-- The validator pass over a given agent. -/
def vloopOf (e : Envt) (a : LearningAgent) : ValidationResult × List PathNode × ℚ :=
  validateLoop e 0 (startTime e a) a.position.next_location
    a.path.current_capacity 0 a.path.request_order

theorem has_valid_path_incomplete (e : Envt) (a : LearningAgent)
    (h : a.path.is_complete = false) : has_valid_path e a = (.incompletePath, a) := by
  simp [has_valid_path, h]

theorem has_valid_path_cases (e : Envt) (a : LearningAgent) (h : a.path.is_complete = true) :
    has_valid_path e a =
      (match (vloopOf e a).1 with
       | .ok =>
         (.ok, { a with path :=
           { a.path with request_order := (vloopOf e a).2.1,
                         total_delay := (vloopOf e a).2.2 } })
       | res =>
         (res, { a with path := { a.path with request_order := (vloopOf e a).2.1 } })) := by
  rw [has_valid_path, if_neg (by simp [h])]
  rfl

theorem hv_fst (e : Envt) (a : LearningAgent) (h : a.path.is_complete = true) :
    (has_valid_path e a).1 = (vloopOf e a).1 := by
  rw [has_valid_path_cases e a h]
  cases hres : (vloopOf e a).1 <;> simp [hres]

theorem hv_snd_ok (e : Envt) (a : LearningAgent) (h : a.path.is_complete = true)
    (hok : (vloopOf e a).1 = .ok) :
    (has_valid_path e a).2 =
      { a with path := { a.path with request_order := (vloopOf e a).2.1,
                                     total_delay := (vloopOf e a).2.2 } } := by
  rw [has_valid_path_cases e a h]
  simp [hok]

theorem hv_snd_dl (e : Envt) (a : LearningAgent) (h : a.path.is_complete = true)
    (k : Nat) (hdl : (vloopOf e a).1 = .deadlineViolation k) :
    (has_valid_path e a).2 =
      { a with path := { a.path with request_order := (vloopOf e a).2.1 } } := by
  rw [has_valid_path_cases e a h]
  simp [hdl]

theorem hv_snd_cap (e : Envt) (a : LearningAgent) (h : a.path.is_complete = true)
    (k : Nat) (hcap : (vloopOf e a).1 = .capacityOverflow k) :
    (has_valid_path e a).2 =
      { a with path := { a.path with request_order := (vloopOf e a).2.1 } } := by
  rw [has_valid_path_cases e a h]
  simp [hcap]

theorem updatedNodes_getD_evt (e : Envt) (ns : List PathNode) :
    ∀ t0 loc c0 j, j < ns.length →
      ((updatedNodes e t0 loc c0 ns).getD j defaultPathNode).expected_visit_time =
        (arrivalList e t0 loc ns).getD j 0 := by
  induction ns with
  | nil => intro t0 loc c0 j hj; simp at hj
  | cons node rest ih =>
    intro t0 loc c0 j hj
    match j with
    | 0 => simp [updatedNodes, arrivalList_cons]
    | j + 1 =>
      simp only [updatedNodes, arrivalList_cons, List.getD_cons_succ]
      exact ih (t0 + e.travel_time loc node.location) node.location
        (c0 + nodeDelta node) j (by simp at hj; omega)

theorem updatedNodes_getD_cc (e : Envt) (ns : List PathNode) :
    ∀ t0 loc c0 j, j < ns.length →
      ((updatedNodes e t0 loc c0 ns).getD j defaultPathNode).current_capacity =
        occBefore c0 ns (j + 1) := by
  induction ns with
  | nil => intro t0 loc c0 j hj; simp at hj
  | cons node rest ih =>
    intro t0 loc c0 j hj
    match j with
    | 0 => simp [updatedNodes, occBefore, List.take_succ_cons]
    | j + 1 =>
      rw [occBefore_succ_cons]
      simp only [updatedNodes, List.getD_cons_succ]
      exact ih (t0 + e.travel_time loc node.location) node.location
        (c0 + nodeDelta node) j (by simp at hj; omega)

theorem delaySpec_eq_dropoffSlack (e : Envt) (ns : List PathNode) :
    ∀ t0 loc, delaySpec e t0 loc ns = dropoffSlack ns (arrivalList e t0 loc ns) := by
  induction ns with
  | nil => intro t0 loc; simp [delaySpec, dropoffSlack]
  | cons node rest ih =>
    intro t0 loc
    simp only [delaySpec, arrivalList_cons, dropoffSlack, List.zip_cons_cons,
      List.map_cons, List.sum_cons]
    rw [ih]
    rfl

theorem hv_snd_fail (e : Envt) (a : LearningAgent) (h : a.path.is_complete = true)
    (hne : (vloopOf e a).1 ≠ .ok) :
    (has_valid_path e a).2 =
      { a with path := { a.path with request_order := (vloopOf e a).2.1 } } := by
  rw [has_valid_path_cases e a h]
  rcases hres : (vloopOf e a).1 with _ | _ | k | k
  · exact absurd hres hne
  · simp [hres]
  · simp [hres]
  · simp [hres]

/-! Concrete instances used by counterexamples and witnesses. -/

/-- A small concrete environment: unit travel times everywhere. -/
def envSimple : Envt :=
  { travel_time := fun _ _ => 1, shortest_path := fun _ d => d,
    ignored_zones := fun _ => false, MAX_CAPACITY := 10,
    current_time := 0, EPOCH_LENGTH := 60 }

/-- A vehicle declaring occupancy 0 whose (complete) path is a single
dropoff: its running occupancy goes to -1. -/
def agentC1 : LearningAgent :=
  { id := 0, position := { next_location := 0, time_to_next_location := 0 },
    path := { request_order := [⟨true, 1, 100, 1, -1⟩], requests := [],
              current_capacity := 0, total_delay := 0, complete := true } }

/-- A vehicle declaring occupancy 11 (above the maximum 10) with one
pickup node whose deadline is generously met. -/
def agentC1w : LearningAgent :=
  { id := 0, position := { next_location := 0, time_to_next_location := 0 },
    path := { request_order := [⟨false, 1, 100, 1, 12⟩], requests := [],
              current_capacity := 11, total_delay := 0, complete := true } }

/-- A full vehicle (occupancy 10 = maximum) with a pickup followed by a
dropoff: occupancy reaches 11 before the dropoff node; all deadlines met. -/
def agentC2 : LearningAgent :=
  { id := 0, position := { next_location := 0, time_to_next_location := 0 },
    path := { request_order := [⟨false, 1, 100, 1, 11⟩, ⟨true, 2, 100, 2, 10⟩],
              requests := [], current_capacity := 10, total_delay := 0, complete := true } }

/-- A valid two-node path with stale bookkeeping fields. -/
def agentC3 : LearningAgent :=
  { id := 0, position := { next_location := 0, time_to_next_location := 0 },
    path := { request_order := [⟨false, 1, 50, 0, 0⟩, ⟨true, 2, 100, 0, 0⟩],
              requests := [], current_capacity := 0, total_delay := 0, complete := true } }

/-- A path whose first node carries a stale `expected_visit_time` and whose
second node misses its deadline. -/
def agentC4 : LearningAgent :=
  { id := 0, position := { next_location := 0, time_to_next_location := 0 },
    path := { request_order := [⟨false, 1, 100, 99, 1⟩, ⟨true, 2, 0, 2, 0⟩],
              requests := [], current_capacity := 0, total_delay := 7, complete := true } }

/-- An agent whose path is not complete. -/
def agentC4i : LearningAgent :=
  { id := 1, position := { next_location := 0, time_to_next_location := 0 },
    path := { request_order := [⟨false, 1, 100, 1, 1⟩], requests := [],
              current_capacity := 0, total_delay := 0, complete := false } }

/-- C1 (counterexample): `has_valid_path` accepts a complete path whose
running occupancy after the first node's delta is `-1`, outside
`[0, MAX_CAPACITY]` — the validator never enforces the lower bound, so the
claimed capacity invariant fails on the code. -/
theorem hv_accepts_negative_occupancy :
    (has_valid_path envSimple agentC1).1 = ValidationResult.ok ∧
    agentOcc agentC1 1 < 0 := by
  constructor
  · norm_num [has_valid_path, validateLoop, Path.is_complete, envSimple, agentC1]
  · norm_num [agentOcc, occBefore, nodeDelta, agentC1]

/-- C1 (amended): on every accepted path the occupancy *before* each node's
delta is at most `MAX_CAPACITY` (no lower bound and no check after the last
delta), and — provided every node up to and including `k` meets its
deadline — a path whose pre-delta occupancy first exceeds `MAX_CAPACITY`
at node `k` is rejected with the capacity-overflow report at index `k`. -/
theorem validator_capacity_check (e : Envt) (a : LearningAgent) :
    ((has_valid_path e a).1 = ValidationResult.ok →
      ∀ j < a.path.request_order.length, agentOcc a j ≤ e.MAX_CAPACITY) ∧
    (∀ k, a.path.is_complete = true →
      k < a.path.request_order.length →
      (∀ j ≤ k, arrAt e a j ≤ pathDeadline a.path.request_order j) →
      (∀ j < k, agentOcc a j ≤ e.MAX_CAPACITY) →
      e.MAX_CAPACITY < agentOcc a k →
      (has_valid_path e a).1 = ValidationResult.capacityOverflow k) := by
  constructor
  · intro hok j hj
    by_cases hcomp : a.path.is_complete = true
    · rw [hv_fst e a hcomp, vloopOf] at hok
      exact ((validateLoop_ok_iff e a.path.request_order 0 (startTime e a)
        a.position.next_location a.path.current_capacity 0).mp hok j hj).2
    · rw [Bool.not_eq_true] at hcomp
      rw [has_valid_path_incomplete e a hcomp] at hok
      simp at hok
  · intro k hcomp hk harr hocc hcap
    rw [hv_fst e a hcomp, vloopOf]
    have hiff := validateLoop_cap_iff e a.path.request_order 0 (startTime e a)
      a.position.next_location a.path.current_capacity 0 k
    rw [Nat.zero_add] at hiff
    rw [hiff]
    exact ⟨hk, fun j hj => ⟨harr j (le_of_lt hj), hocc j hj⟩, harr k le_rfl, hcap⟩

/-- C1 (witness): the amended theorem applied to a concrete overfull
vehicle. -/
theorem validator_capacity_check_witness :
    (has_valid_path envSimple agentC1w).1 = ValidationResult.capacityOverflow 0 :=
  (validator_capacity_check envSimple agentC1w).2 0 rfl (by simp [agentC1w])
    (by intro j hj
        have hj0 : j = 0 := by omega
        subst hj0
        norm_num [arrAt, agentArrivals, startTime, arrivalList, pathDeadline,
          agentC1w, envSimple])
    (by intro j hj; omega)
    (by norm_num [agentOcc, occBefore, agentC1w, envSimple])

/-- C2 (counterexample): the validator fails (capacity overflow at node 1)
although every node's computed arrival time is within its deadline, so
"fails exactly when some arrival time exceeds its deadline" is false on the
code. -/
theorem hv_fails_without_deadline_violation :
    (has_valid_path envSimple agentC2).1 = ValidationResult.capacityOverflow 1 ∧
    (∀ j < agentC2.path.request_order.length,
      arrAt envSimple agentC2 j ≤ pathDeadline agentC2.path.request_order j) := by
  constructor
  · norm_num [has_valid_path, validateLoop, Path.is_complete, envSimple, agentC2]
  · intro j hj
    simp [agentC2] at hj
    interval_cases j <;>
      norm_num [arrAt, agentArrivals, startTime, arrivalList, pathDeadline,
        agentC2, envSimple]

/-- C2 (amended): for every agent, the validator reports a deadline
violation at index `k` iff the path is complete, `k` is in range, every
earlier node passes both the deadline and the capacity check, and node `k`'s
computed arrival time strictly exceeds its deadline (equality passes);
failures can also arise from the separate capacity check. -/
theorem validator_deadline_report (e : Envt) (a : LearningAgent) (k : Nat) :
    (has_valid_path e a).1 = ValidationResult.deadlineViolation k ↔
      (a.path.is_complete = true ∧ k < a.path.request_order.length ∧
        (∀ j < k, arrAt e a j ≤ pathDeadline a.path.request_order j ∧
          agentOcc a j ≤ e.MAX_CAPACITY) ∧
        pathDeadline a.path.request_order k < arrAt e a k) := by
  by_cases hcomp : a.path.is_complete = true
  · rw [hv_fst e a hcomp, vloopOf]
    have hiff := validateLoop_dl_iff e a.path.request_order 0 (startTime e a)
      a.position.next_location a.path.current_capacity 0 k
    rw [Nat.zero_add] at hiff
    rw [hiff]
    simp only [hcomp, true_and]
    exact Iff.rfl
  · rw [Bool.not_eq_true] at hcomp
    apply iff_of_false
    · rw [has_valid_path_incomplete e a hcomp]
      simp
    · rintro ⟨hc, -⟩
      rw [hcomp] at hc
      cases hc

/-- C3: on success each node's `expected_visit_time` equals its computed
arrival time, its `current_capacity` equals the computed occupancy after the
node's delta, and `total_delay` equals the sum over dropoff nodes of
deadline minus computed arrival time. -/
theorem validator_success_writeback (e : Envt) (a a' : LearningAgent)
    (h : has_valid_path e a = (ValidationResult.ok, a')) :
    (∀ j < a.path.request_order.length,
      ((a'.path.request_order.getD j defaultPathNode).expected_visit_time = arrAt e a j ∧
       (a'.path.request_order.getD j defaultPathNode).current_capacity = agentOcc a (j + 1))) ∧
    a'.path.total_delay = dropoffSlack a.path.request_order (agentArrivals e a) := by
  have hcomp : a.path.is_complete = true := by
    by_contra hc
    rw [Bool.not_eq_true] at hc
    rw [has_valid_path_incomplete e a hc] at h
    simp at h
  have hfst : (has_valid_path e a).1 = .ok := by rw [h]
  have hv1 : (vloopOf e a).1 = .ok := by rw [← hv_fst e a hcomp]; exact hfst
  have hout : vloopOf e a =
      (.ok, updatedNodes e (startTime e a) a.position.next_location
        a.path.current_capacity a.path.request_order,
        0 + delaySpec e (startTime e a) a.position.next_location a.path.request_order) := by
    rw [vloopOf] at hv1 ⊢
    exact validateLoop_ok_out e a.path.request_order 0 (startTime e a)
      a.position.next_location a.path.current_capacity 0 hv1
  have hsnd := hv_snd_ok e a hcomp hv1
  have ha' : a' = (has_valid_path e a).2 := by rw [h]
  rw [ha', hsnd, hout]
  refine ⟨?_, ?_⟩
  · intro j hj
    exact ⟨updatedNodes_getD_evt e a.path.request_order (startTime e a)
        a.position.next_location a.path.current_capacity j hj,
      updatedNodes_getD_cc e a.path.request_order (startTime e a)
        a.position.next_location a.path.current_capacity j hj⟩
  · show (0 : ℚ) + delaySpec e (startTime e a) a.position.next_location
        a.path.request_order = dropoffSlack a.path.request_order (agentArrivals e a)
    rw [zero_add, delaySpec_eq_dropoffSlack]
    rfl

/-- C3 (witness): the theorem applied to a concrete valid two-node path. -/
theorem validator_success_writeback_witness :
    (∀ j < agentC3.path.request_order.length,
      ((((has_valid_path envSimple agentC3).2).path.request_order.getD j
          defaultPathNode).expected_visit_time = arrAt envSimple agentC3 j ∧
       (((has_valid_path envSimple agentC3).2).path.request_order.getD j
          defaultPathNode).current_capacity = agentOcc agentC3 (j + 1))) ∧
    ((has_valid_path envSimple agentC3).2).path.total_delay =
      dropoffSlack agentC3.path.request_order (agentArrivals envSimple agentC3) :=
  validator_success_writeback envSimple agentC3 ((has_valid_path envSimple agentC3).2)
    (by norm_num [has_valid_path, validateLoop, Path.is_complete, envSimple, agentC3])

/-- C4 (counterexample): on a failing call (deadline violation at node 1)
the path is *not* left unchanged: node 0's stale `expected_visit_time` (99)
has been overwritten with the computed arrival time (1). -/
theorem hv_mutates_on_failure :
    (has_valid_path envSimple agentC4).1 = ValidationResult.deadlineViolation 1 ∧
    ((has_valid_path envSimple agentC4).2.path.request_order.getD 0
        defaultPathNode).expected_visit_time ≠
      (agentC4.path.request_order.getD 0 defaultPathNode).expected_visit_time := by
  constructor
  · norm_num [has_valid_path, validateLoop, Path.is_complete, envSimple, agentC4]
  · norm_num [has_valid_path, validateLoop, Path.is_complete, envSimple, agentC4]

/-- C4 (amended): an incomplete path fails immediately with the agent
entirely unchanged; on any failure `total_delay` and the `requests` list are
unchanged; on a deadline violation at node `k` the nodes from `k` onwards
are unchanged; on a capacity overflow at node `k` the nodes strictly after
`k` are unchanged while node `k` itself is altered only by having its
`expected_visit_time` overwritten with its computed arrival time — and (per
the counterexample) nodes before `k` may have had their bookkeeping fields
overwritten, so the path is not left entirely unchanged. -/
theorem validator_failure_effects (e : Envt) (a : LearningAgent) :
    (a.path.is_complete = false →
      has_valid_path e a = (ValidationResult.incompletePath, a)) ∧
    ((has_valid_path e a).1 ≠ ValidationResult.ok →
      (has_valid_path e a).2.path.total_delay = a.path.total_delay ∧
      (has_valid_path e a).2.path.requests = a.path.requests) ∧
    (∀ k, (has_valid_path e a).1 = ValidationResult.deadlineViolation k →
      (has_valid_path e a).2.path.request_order.drop k =
        a.path.request_order.drop k) ∧
    (∀ k, (has_valid_path e a).1 = ValidationResult.capacityOverflow k →
      (has_valid_path e a).2.path.request_order.drop (k + 1) =
        a.path.request_order.drop (k + 1) ∧
      (has_valid_path e a).2.path.request_order.getD k defaultPathNode =
        { a.path.request_order.getD k defaultPathNode with
            expected_visit_time := arrAt e a k }) := by
  refine ⟨has_valid_path_incomplete e a, ?_, ?_, ?_⟩
  · intro hne
    by_cases hcomp : a.path.is_complete = true
    · have hne' : (vloopOf e a).1 ≠ .ok := by
        rw [← hv_fst e a hcomp]; exact hne
      rw [hv_snd_fail e a hcomp hne']
      exact ⟨rfl, rfl⟩
    · rw [Bool.not_eq_true] at hcomp
      rw [has_valid_path_incomplete e a hcomp]
      exact ⟨rfl, rfl⟩
  · intro k hdl
    by_cases hcomp : a.path.is_complete = true
    · have hdl' : (vloopOf e a).1 = .deadlineViolation k := by
        rw [← hv_fst e a hcomp]; exact hdl
      rw [hv_snd_dl e a hcomp k hdl']
      show (vloopOf e a).2.1.drop k = a.path.request_order.drop k
      have hsuf := validateLoop_dl_suffix e a.path.request_order 0 (startTime e a)
        a.position.next_location a.path.current_capacity 0 k
      rw [Nat.zero_add] at hsuf
      rw [vloopOf] at hdl'
      exact hsuf hdl'
    · rw [Bool.not_eq_true] at hcomp
      rw [has_valid_path_incomplete e a hcomp] at hdl
      simp at hdl
  · intro k hcap
    by_cases hcomp : a.path.is_complete = true
    · have hcap' : (vloopOf e a).1 = .capacityOverflow k := by
        rw [← hv_fst e a hcomp]; exact hcap
      rw [hv_snd_cap e a hcomp k hcap']
      have hsuf := validateLoop_cap_suffix e a.path.request_order 0 (startTime e a)
        a.position.next_location a.path.current_capacity 0 k
      rw [Nat.zero_add] at hsuf
      rw [vloopOf] at hcap'
      have h2 := hsuf hcap'
      exact ⟨h2.1, h2.2⟩
    · rw [Bool.not_eq_true] at hcomp
      rw [has_valid_path_incomplete e a hcomp] at hcap
      simp at hcap

/-- A complete one-node path with a stale `expected_visit_time` on a vehicle
declaring occupancy 11: the capacity check fails at node 0 after the evt
fix-up has run. -/
def agentC4c : LearningAgent :=
  { id := 2, position := { next_location := 0, time_to_next_location := 0 },
    path := { request_order := [⟨false, 1, 100, 50, 12⟩], requests := [],
              current_capacity := 11, total_delay := 3, complete := true } }

/-- C4 (witness): the amended theorem applied to the concrete incomplete
agent, the concrete deadline-violating agent, and the concrete
capacity-overflowing agent. -/
theorem validator_failure_effects_witness :
    has_valid_path envSimple agentC4i = (ValidationResult.incompletePath, agentC4i) ∧
    ((has_valid_path envSimple agentC4).2.path.total_delay = agentC4.path.total_delay ∧
      (has_valid_path envSimple agentC4).2.path.requests = agentC4.path.requests) ∧
    (has_valid_path envSimple agentC4).2.path.request_order.drop 1 =
      agentC4.path.request_order.drop 1 ∧
    ((has_valid_path envSimple agentC4c).2.path.request_order.drop 1 =
        agentC4c.path.request_order.drop 1 ∧
      (has_valid_path envSimple agentC4c).2.path.request_order.getD 0 defaultPathNode =
        { agentC4c.path.request_order.getD 0 defaultPathNode with
            expected_visit_time := arrAt envSimple agentC4c 0 }) :=
  ⟨(validator_failure_effects envSimple agentC4i).1 rfl,
   (validator_failure_effects envSimple agentC4).2.1
     (by norm_num [has_valid_path, validateLoop, Path.is_complete, envSimple, agentC4]
         exact fun hc => ValidationResult.noConfusion hc),
   (validator_failure_effects envSimple agentC4).2.2.1 1
     (by norm_num [has_valid_path, validateLoop, Path.is_complete, envSimple, agentC4]),
   (validator_failure_effects envSimple agentC4c).2.2.2 0
     (by norm_num [has_valid_path, validateLoop, Path.is_complete, envSimple, agentC4c])⟩

/-- `Environment._move_agent` (Environment.py lines 82-105), with the
`while` loop rendered as fuel-bounded recursion (`none` = fuel exhausted;
the Python loop has no internal bound).  Each iteration: subtract the hop
time from the budget; if the budget stays nonnegative, pop the path head
when the reached intersection matches it, then either head for the next hop
(continue) or stop with the leftover budget (empty path); otherwise roll the
hop time back by the exact overrun and leave the loop with the (negative)
budget. -/
def move_agent (e : Envt) : Nat → LearningAgent → ℚ → Option (LearningAgent × ℚ)
  | 0, _, _ => none
  | fuel + 1, agent, time_remaining =>
    if time_remaining < 0 then some (agent, time_remaining)
    else
      let t := time_remaining - agent.position.time_to_next_location
      if 0 ≤ t then
        let path1 :=
          if agent.path.get_next_location = some agent.position.next_location then
            agent.path.visit_next_location
          else agent.path
        if path1.is_empty = false then
          let target := path1.get_next_location.getD 0
          let next_location := e.shortest_path agent.position.next_location target
          let tt := e.travel_time agent.position.next_location next_location
          move_agent e fuel
            { agent with
                position := { next_location := next_location, time_to_next_location := tt },
                path := path1 } t
        else some ({ agent with path := path1 }, t)
      else
        move_agent e fuel
          { agent with position :=
              { agent.position with time_to_next_location :=
                  agent.position.time_to_next_location -
                    (t + agent.position.time_to_next_location) } } t

/-- C6: for a nonnegative budget, `_move_agent` returns the unused budget:
a strictly positive return value only occurs with an empty path on exit,
and a negative return value `r` leaves `time_to_next_location` equal to the
exact overrun `-r`. -/
theorem move_agent_budget (e : Envt) (fuel : Nat) :
    ∀ (a : LearningAgent) (t : ℚ) (a' : LearningAgent) (r : ℚ),
      0 ≤ t → move_agent e fuel a t = some (a', r) →
      ((0 < r → a'.path.is_empty = true) ∧
       (r < 0 → a'.position.time_to_next_location = -r)) := by
  induction fuel with
  | zero => intro a t a' r h0 h; simp [move_agent] at h
  | succ fuel ih =>
    intro a t a' r h0 h
    rw [move_agent] at h
    rw [if_neg (not_lt.mpr h0)] at h
    by_cases hset : 0 ≤ t - a.position.time_to_next_location
    · rw [if_pos hset] at h
      by_cases hne :
          (if a.path.get_next_location = some a.position.next_location then
            a.path.visit_next_location else a.path).is_empty = false
      · rw [if_pos hne] at h
        exact ih _ _ _ _ hset h
      · rw [if_neg hne] at h
        simp only [Option.some.injEq, Prod.mk.injEq] at h
        obtain ⟨ha, hr⟩ := h
        subst ha
        subst hr
        rw [Bool.not_eq_false] at hne
        constructor
        · intro _
          simpa using hne
        · intro hrneg
          exact absurd hrneg (not_lt.mpr hset)
    · rw [if_neg hset] at h
      cases fuel with
      | zero => simp [move_agent] at h
      | succ fuel2 =>
        rw [move_agent] at h
        rw [if_pos (not_le.mp hset)] at h
        simp only [Option.some.injEq, Prod.mk.injEq] at h
        obtain ⟨ha, hr⟩ := h
        subst ha
        subst hr
        constructor
        · intro hpos
          exact absurd hpos (not_lt.mpr (le_of_lt (not_le.mp hset)))
        · intro _
          show a.position.time_to_next_location -
              ((t - a.position.time_to_next_location) + a.position.time_to_next_location) =
              -(t - a.position.time_to_next_location)
          ring

/-- Environment and agent for the C6 witness run. -/
def envC6 : Envt :=
  { travel_time := fun _ _ => 4, shortest_path := fun _ d => d,
    ignored_zones := fun _ => false, MAX_CAPACITY := 10,
    current_time := 0, EPOCH_LENGTH := 60 }

def agentC6 : LearningAgent :=
  { id := 0, position := { next_location := 0, time_to_next_location := 3 },
    path := { request_order := [⟨false, 5, 100, 0, 0⟩], requests := [],
              current_capacity := 0, total_delay := 0, complete := true } }

def agentC6r : LearningAgent :=
  { id := 0, position := { next_location := 5, time_to_next_location := 4 },
    path := { request_order := [], requests := [],
              current_capacity := 0, total_delay := 0, complete := true } }

/-- C6 (witness): a concrete run finishing with positive leftover budget and
an emptied path. -/
theorem move_agent_budget_witness :
    (0 : ℚ) ≤ 10 ∧
    ((0 < (3 : ℚ) → agentC6r.path.is_empty = true) ∧
     ((3 : ℚ) < 0 → agentC6r.position.time_to_next_location = -3)) :=
  ⟨by norm_num,
   move_agent_budget envC6 3 agentC6 10 agentC6r 3 (by norm_num)
     (by norm_num [move_agent, Path.get_next_location, Path.visit_next_location,
       Path.is_empty, envC6, agentC6, agentC6r])⟩

/-- Modelled from the spec: the synthetic rebalancing stop `PathNode(False, 0)`
spliced in by `simulate_motion` — a pickup-only node whose `get_info` target
is the sampled request's pickup location (its deadline and bookkeeping
fields are never read by the probe). -/
def dummyPathNode (target : Request) : PathNode :=
  { is_dropoff := false, location := target.pickup, deadline := 0,
    expected_visit_time := 0, current_capacity := 0 }

/-- The per-vehicle rebalancing step of `simulate_motion` (Environment.py
lines 71-80): append `RequestInfo(target, False)` to `path.requests` and the
synthetic `PathNode` to `path.request_order`, move the agent with its
leftover budget, then `request_order.clear()` and `requests.clear()`. -/
def rebalance_probe (e : Envt) (fuel : Nat) (agent : LearningAgent) (t : ℚ)
    (target : Request) : Option LearningAgent :=
  let spliced :=
    { agent with path :=
      { agent.path with
          requests := agent.path.requests ++ [{ request := target, assigned := false }],
          request_order := agent.path.request_order ++ [dummyPathNode target] } }
  (move_agent e fuel spliced t).map fun p =>
    { p.1 with path := { p.1.path with request_order := [], requests := [] } }

/-- `_move_agent` never touches a path's `requests`, `total_delay` or
`current_capacity` fields (it only pops `request_order` entries). -/
theorem move_agent_preserves (e : Envt) (fuel : Nat) :
    ∀ a t a' r, move_agent e fuel a t = some (a', r) →
      (a'.path.requests = a.path.requests ∧
       a'.path.total_delay = a.path.total_delay ∧
       a'.path.current_capacity = a.path.current_capacity) := by
  induction fuel with
  | zero => intro a t a' r h; simp [move_agent] at h
  | succ fuel ih =>
    intro a t a' r h
    rw [move_agent] at h
    by_cases hneg : t < 0
    · rw [if_pos hneg] at h
      simp only [Option.some.injEq, Prod.mk.injEq] at h
      obtain ⟨ha, -⟩ := h
      subst ha
      exact ⟨rfl, rfl, rfl⟩
    · rw [if_neg hneg] at h
      by_cases hset : 0 ≤ t - a.position.time_to_next_location
      · rw [if_pos hset] at h
        have hpreq :
            (if a.path.get_next_location = some a.position.next_location then
              a.path.visit_next_location else a.path).requests = a.path.requests := by
          split <;> rfl
        have hpdel :
            (if a.path.get_next_location = some a.position.next_location then
              a.path.visit_next_location else a.path).total_delay = a.path.total_delay := by
          split <;> rfl
        have hpcc :
            (if a.path.get_next_location = some a.position.next_location then
              a.path.visit_next_location else a.path).current_capacity =
              a.path.current_capacity := by
          split <;> rfl
        by_cases hne :
            (if a.path.get_next_location = some a.position.next_location then
              a.path.visit_next_location else a.path).is_empty = false
        · rw [if_pos hne] at h
          have hrec := ih _ _ _ _ h
          refine ⟨?_, ?_, ?_⟩
          · rw [hrec.1]; exact hpreq
          · rw [hrec.2.1]; exact hpdel
          · rw [hrec.2.2]; exact hpcc
        · rw [if_neg hne] at h
          simp only [Option.some.injEq, Prod.mk.injEq] at h
          obtain ⟨ha, -⟩ := h
          subst ha
          exact ⟨hpreq, hpdel, hpcc⟩
      · rw [if_neg hset] at h
        have hrec := ih _ _ _ _ h
        exact hrec

/-- C7 (amended): the probe leaves the rebalanced vehicle with *empty*
`request_order` and `requests` (so the synthetic node and `RequestInfo` do
not persist, and `total_delay`/`current_capacity` are untouched) — but it
clears the whole `requests` list, so any pre-existing entry is removed too;
only for a vehicle whose `requests` was already empty is the committed path
state exactly as before the splice. -/
theorem rebalance_probe_effects (e : Envt) (fuel : Nat) (a : LearningAgent) (t : ℚ)
    (target : Request) (a' : LearningAgent)
    (h : rebalance_probe e fuel a t target = some a') :
    a'.path.request_order = [] ∧ a'.path.requests = [] ∧
    a'.path.total_delay = a.path.total_delay ∧
    a'.path.current_capacity = a.path.current_capacity ∧
    (a.path.requests = [] → a.path.request_order = [] →
      (a'.path.request_order = a.path.request_order ∧
       a'.path.requests = a.path.requests)) := by
  rw [rebalance_probe] at h
  cases hm : move_agent e fuel
      { a with path :=
        { a.path with
            requests := a.path.requests ++ [{ request := target, assigned := false }],
            request_order := a.path.request_order ++ [dummyPathNode target] } } t with
  | none => rw [hm] at h; simp at h
  | some p =>
    rw [hm] at h
    simp only [Option.map_some', Option.some.injEq] at h
    have hpres := move_agent_preserves e fuel _ t p.1 p.2 hm
    subst h
    refine ⟨rfl, rfl, ?_, ?_, ?_⟩
    · exact hpres.2.1
    · exact hpres.2.2
    · intro h1 h2
      rw [h1, h2]
      exact ⟨rfl, rfl⟩

/-- Environment and vehicle for C7: the vehicle has an exhausted visit order
but still holds one committed `RequestInfo`. -/
def envC7 : Envt :=
  { travel_time := fun _ _ => 5, shortest_path := fun _ d => d,
    ignored_zones := fun _ => false, MAX_CAPACITY := 10,
    current_time := 0, EPOCH_LENGTH := 60 }

def requestC7 : Request := { source := 3, destination := 4, creation_time := 0, travel_time := 1 }

def agentC7 : LearningAgent :=
  { id := 0, position := { next_location := 0, time_to_next_location := 0 },
    path := { request_order := [],
              requests := [{ request := { source := 1, destination := 2,
                                          creation_time := 0, travel_time := 5 },
                             assigned := true }],
              current_capacity := 0, total_delay := 0, complete := true } }

def agentC7r : LearningAgent :=
  { id := 0, position := { next_location := 3, time_to_next_location := 4 },
    path := { request_order := [], requests := [],
              current_capacity := 0, total_delay := 0, complete := true } }

/-- C7 (counterexample): after the rebalancing probe the vehicle's committed
`requests` entry is gone — `requests.clear()` removes pre-existing entries,
so the committed path state is *not* exactly what it was before the splice. -/
theorem rebalance_probe_drops_requests :
    rebalance_probe envC7 5 agentC7 1 requestC7 = some agentC7r ∧
    agentC7r.path.requests = [] ∧ agentC7.path.requests ≠ [] := by
  refine ⟨?_, rfl, by simp [agentC7]⟩
  norm_num [rebalance_probe, move_agent, Path.get_next_location, Path.visit_next_location,
    Path.is_empty, dummyPathNode, Request.pickup, envC7, agentC7, requestC7, agentC7r]

/-- C7 (witness): the amended theorem applied to the concrete probe run. -/
theorem rebalance_probe_effects_witness :
    agentC7r.path.request_order = [] ∧ agentC7r.path.requests = [] ∧
    agentC7r.path.total_delay = agentC7.path.total_delay ∧
    agentC7r.path.current_capacity = agentC7.path.current_capacity ∧
    (agentC7.path.requests = [] → agentC7.path.request_order = [] →
      (agentC7r.path.request_order = agentC7.path.request_order ∧
       agentC7r.path.requests = agentC7.path.requests)) :=
  rebalance_probe_effects envC7 5 agentC7 1 requestC7 agentC7r
    (by norm_num [rebalance_probe, move_agent, Path.get_next_location,
      Path.visit_next_location, Path.is_empty, dummyPathNode, Request.pickup,
      envC7, agentC7, requestC7, agentC7r])

/-- `Environment.REQUEST_HISTORY_SIZE` (Environment.py line 19). -/
def REQUEST_HISTORY_SIZE : Nat := 500

/-- The last `k` elements of a list, in order — the contents of a
`deque(maxlen = k)` after appending the whole list. -/
def lastN {α : Type} (k : Nat) (l : List α) : List α := (l.reverse.take k).reverse

/-- `Environment.update_recent_requests` (Environment.py lines 155-156):
`recent_request_history.extend(recent_requests)` on a
`deque(maxlen = REQUEST_HISTORY_SIZE)` — append on the right, evicting the
oldest entries on the left when the bound is hit. -/
def update_recent_requests (hist new : List Request) : List Request :=
  lastN REQUEST_HISTORY_SIZE (hist ++ new)

theorem lastN_length {α : Type} (k : Nat) (l : List α) :
    (lastN k l).length = min k l.length := by
  simp [lastN]

theorem lastN_of_le {α : Type} (k : Nat) (l : List α) (h : l.length ≤ k) :
    lastN k l = l := by
  rw [lastN, List.take_of_length_le (by simpa using h), List.reverse_reverse]

theorem lastN_append_lastN {α : Type} (k : Nat) (l m : List α) :
    lastN k (lastN k l ++ m) = lastN k (l ++ m) := by
  simp only [lastN, List.reverse_append, List.reverse_reverse]
  rw [List.take_append_eq_append_take, List.take_append_eq_append_take, List.take_take,
    Nat.min_eq_left (Nat.sub_le k m.reverse.length)]

theorem foldl_update (bs : List (List Request)) :
    ∀ acc : List Request, acc.length ≤ REQUEST_HISTORY_SIZE →
      List.foldl update_recent_requests acc bs =
        lastN REQUEST_HISTORY_SIZE (acc ++ bs.flatten) := by
  induction bs with
  | nil =>
    intro acc h
    rw [List.foldl_nil, List.flatten_nil, List.append_nil, lastN_of_le _ _ h]
  | cons b bs ih =>
    intro acc h
    rw [List.foldl_cons,
      ih (update_recent_requests acc b)
        (by rw [update_recent_requests, lastN_length]; exact Nat.min_le_left _ _),
      update_recent_requests, lastN_append_lastN, List.flatten_cons, List.append_assoc]

inductive SimError where
  | fuelExhausted : SimError
  | emptyHistorySample : SimError
deriving DecidableEq

/-- Outcome of one `simulate_motion` epoch: the moved (and possibly
rebalanced) agents, the updated rolling history, and — when rebalancing
happened — the history snapshot the target sampler drew from. -/
structure SimResult where
  agents : List LearningAgent
  history : List Request
  pool : Option (List Request)
deriving DecidableEq

def defaultRequest : Request :=
  { source := 0, destination := 0, creation_time := 0, travel_time := 0 }

/-- `Environment._get_rebalance_targets` (Environment.py lines 107-143):
draw one target per agent from the history via `random.choice` (modelled by
the draw-index oracle `pickIdx`; `choice` on an empty sequence raises
`IndexError`, modelled as `emptyHistorySample`), then hand the sampled pool
to the docplex assignment solve-and-extract step, abstracted here as the
opaque external function `assign` (its LP contract is verified separately
by `rebalance_lp`). -/
def get_rebalance_targets (hist : List Request) (pickIdx : Nat → Nat)
    (assign : List LearningAgent → List Request → List Request)
    (agentsR : List LearningAgent) : Except SimError (List Request) :=
  if agentsR.length = 0 then .ok (assign agentsR [])
  else if hist.isEmpty then .error .emptyHistorySample
  else .ok (assign agentsR ((List.range agentsR.length).map fun i =>
    hist.getD (pickIdx i % hist.length) defaultRequest))

/-- The `for agent in agents` movement loop of `simulate_motion`
(Environment.py lines 53-58), keeping each agent's leftover budget. -/
def mvAll (e : Envt) (fuel : Nat) : List LearningAgent → Option (List (LearningAgent × ℚ))
  | [] => some []
  | a :: rest =>
    match move_agent e fuel a e.EPOCH_LENGTH with
    | none => none
    | some p =>
      match mvAll e fuel rest with
      | none => none
      | some l => some (p :: l)

/-- The `for idx, target in enumerate(rebalancing_targets)` loop of
`simulate_motion` (Environment.py lines 68-80). -/
def probeAll (e : Envt) (fuel : Nat) :
    List ((LearningAgent × ℚ) × Request) → Option (List LearningAgent)
  | [] => some []
  | (p, tgt) :: rest =>
    match rebalance_probe e fuel p.1 p.2 tgt with
    | none => none
    | some a1 =>
      match probeAll e fuel rest with
      | none => none
      | some l => some (a1 :: l)

/-- Reassemble the agent list after rebalancing: agents that had strictly
positive leftover budget are replaced (in order) by their probed versions
(the Python code mutates them in place). -/
def mergeRebalanced : List (LearningAgent × ℚ) → List LearningAgent → List LearningAgent
  | [], _ => []
  | p :: rest, probed =>
    if 0 < p.2 then
      match probed with
      | [] => p.1 :: mergeRebalanced rest []
      | q :: qs => q :: mergeRebalanced rest qs
    else p.1 :: mergeRebalanced rest probed

/-- `Environment.simulate_motion` (Environment.py lines 50-80): move every
agent one epoch, append the epoch's requests to the bounded rolling history,
then — if any agent has strictly positive leftover budget — sample one
target per such agent from the *updated* history and probe each toward its
target.  `pool` records the history snapshot used by the sampler. -/
def simulate_motion (e : Envt) (fuel : Nat) (pickIdx : Nat → Nat)
    (assign : List LearningAgent → List Request → List Request)
    (hist : List Request) (agents : List LearningAgent)
    (current_requests : List Request) : Except SimError SimResult :=
  match mvAll e fuel agents with
  | none => .error .fuelExhausted
  | some moved =>
    if (moved.filter fun p => decide ((0 : ℚ) < p.2)).isEmpty then
      .ok { agents := moved.map Prod.fst,
            history := update_recent_requests hist current_requests, pool := none }
    else
      match get_rebalance_targets (update_recent_requests hist current_requests)
          pickIdx assign ((moved.filter fun p => decide ((0 : ℚ) < p.2)).map Prod.fst) with
      | .error err => .error err
      | .ok targets =>
        match probeAll e fuel ((moved.filter fun p => decide ((0 : ℚ) < p.2)).zip targets) with
        | none => .error .fuelExhausted
        | some probed =>
          .ok { agents := mergeRebalanced moved probed,
                history := update_recent_requests hist current_requests,
                pool := some (update_recent_requests hist current_requests) }

/-- C8: the recent-request history is a bounded FIFO: any sequence of
`update_recent_requests` calls starting from the empty history leaves
exactly the last `REQUEST_HISTORY_SIZE` (500) appended requests, in
appending order with the oldest evicted first (hence never more than 500);
and every successful `simulate_motion` installs the history updated with the
epoch's new requests and samples rebalancing targets (if any) from exactly
that updated history. -/
theorem recent_request_history_fifo :
    (∀ bs : List (List Request),
      List.foldl update_recent_requests [] bs =
        lastN REQUEST_HISTORY_SIZE bs.flatten ∧
      (List.foldl update_recent_requests [] bs).length ≤ REQUEST_HISTORY_SIZE) ∧
    (∀ e fuel pickIdx assign hist agents cur r,
      simulate_motion e fuel pickIdx assign hist agents cur = .ok r →
      r.history = update_recent_requests hist cur ∧
      (r.pool = none ∨ r.pool = some (update_recent_requests hist cur))) := by
  constructor
  · intro bs
    have h := foldl_update bs [] (by simp [REQUEST_HISTORY_SIZE])
    rw [List.nil_append] at h
    refine ⟨h, ?_⟩
    rw [h, lastN_length]
    exact Nat.min_le_left _ _
  · intro e fuel pickIdx assign hist agents cur r h
    rw [simulate_motion] at h
    split at h
    · exact Except.noConfusion h
    · split at h
      · simp only [Except.ok.injEq] at h
        subst h
        exact ⟨rfl, Or.inl rfl⟩
      · split at h
        · exact Except.noConfusion h
        · split at h
          · exact Except.noConfusion h
          · simp only [Except.ok.injEq] at h
            subst h
            exact ⟨rfl, Or.inr rfl⟩

/-- C8 (witness): a trivial concrete epoch — no agents, empty history. -/
theorem recent_request_history_fifo_witness :
    simulate_motion envSimple 1 (fun _ => 0) (fun _ ts => ts) [] [] [] =
      Except.ok { agents := [], history := [], pool := none } ∧
    (({ agents := [], history := [], pool := none } : SimResult).history =
        update_recent_requests [] [] ∧
      (({ agents := [], history := [], pool := none } : SimResult).pool = none ∨
        ({ agents := [], history := [], pool := none } : SimResult).pool =
          some (update_recent_requests [] []))) :=
  ⟨rfl,
   recent_request_history_fifo.2 envSimple 1 (fun _ => 0) (fun _ ts => ts) [] [] []
     { agents := [], history := [], pool := none } rfl⟩

/-- C10: when the updated history is empty (nothing was ever appended and
the epoch brings no requests) but at least one agent finishes its motion
with strictly positive leftover budget, `simulate_motion` does not complete:
sampling a rebalancing target from the empty history raises; a non-empty
history is an unstated precondition of the rebalancing phase. -/
theorem rebalance_requires_history (e : Envt) (fuel : Nat) (pickIdx : Nat → Nat)
    (assign : List LearningAgent → List Request → List Request)
    (agents : List LearningAgent) (moved : List (LearningAgent × ℚ))
    (hmv : mvAll e fuel agents = some moved)
    (hreb : (moved.filter fun p => decide ((0 : ℚ) < p.2)).isEmpty = false) :
    simulate_motion e fuel pickIdx assign [] agents [] =
      Except.error SimError.emptyHistorySample := by
  rw [simulate_motion, hmv]
  dsimp only
  rw [if_neg (by rw [hreb]; exact Bool.false_ne_true)]
  have hhist : update_recent_requests [] [] = ([] : List Request) := rfl
  rw [hhist]
  have hlen : ((moved.filter fun p => decide ((0 : ℚ) < p.2)).map Prod.fst).length ≠ 0 := by
    rw [List.length_map]
    intro h0
    rw [List.length_eq_zero] at h0
    rw [h0] at hreb
    exact Bool.noConfusion hreb
  rw [get_rebalance_targets, if_neg hlen,
    if_pos (show List.isEmpty ([] : List Request) = true from rfl)]

/-- Environment and agent for the C10 witness: one idle vehicle, epoch
length 10, one hop of length 1 and an empty path. -/
def envC10 : Envt :=
  { travel_time := fun _ _ => 1, shortest_path := fun _ d => d,
    ignored_zones := fun _ => false, MAX_CAPACITY := 10,
    current_time := 0, EPOCH_LENGTH := 10 }

def agentC10 : LearningAgent :=
  { id := 0, position := { next_location := 0, time_to_next_location := 1 },
    path := { request_order := [], requests := [],
              current_capacity := 0, total_delay := 0, complete := true } }

/-- C10 (witness): the theorem applied to the concrete idle vehicle with an
empty history. -/
theorem rebalance_requires_history_witness :
    mvAll envC10 2 [agentC10] = some [(agentC10, 9)] ∧
    simulate_motion envC10 2 (fun _ => 0) (fun _ ts => ts) [] [agentC10] [] =
      Except.error SimError.emptyHistorySample :=
  ⟨by norm_num [mvAll, move_agent, Path.get_next_location, Path.visit_next_location,
      Path.is_empty, envC10, agentC10],
   rebalance_requires_history envC10 2 (fun _ => 0) (fun _ ts => ts) [agentC10]
     [(agentC10, 9)]
     (by norm_num [mvAll, move_agent, Path.get_next_location, Path.visit_next_location,
       Path.is_empty, envC10, agentC10])
     (by norm_num [List.filter, agentC10])⟩

/-! The rebalancing assignment LP of `_get_rebalance_targets`
(Environment.py lines 107-143).  The binary variable matrix
`assignments[agent_id, target_id]` over `range(len(agents)) ×
range(len(possible_targets))` is modelled as `x : Fin n → Fin n → Bool`;
the docplex solver is opaque, so a solution is any matrix satisfying the
row/column equality constraints, and the solver's optimality contract is a
hypothesis. -/

/-- The sampling loop (lines 109-112): one draw per agent, with
replacement; the `random.choice` draws are modelled by `pick`. -/
def possibleTargets (n : Nat) (pick : Fin n → Request) : List Request := List.ofFn pick

/-- Row constraints (lines 121-122): each agent gets exactly one target. -/
abbrev lpRowOk (n : Nat) (x : Fin n → Fin n → Bool) : Prop :=
  ∀ a : Fin n, (∑ t : Fin n, if x a t then (1 : ℤ) else 0) = 1

/-- Column constraints (lines 125-126): each target is claimed exactly once. -/
abbrev lpColOk (n : Nat) (x : Fin n → Fin n → Bool) : Prop :=
  ∀ t : Fin n, (∑ a : Fin n, if x a t then (1 : ℤ) else 0) = 1

abbrev lpFeasible (n : Nat) (x : Fin n → Fin n → Bool) : Prop := lpRowOk n x ∧ lpColOk n x

/-- The objective (line 129): total travel time from each agent's current
position to its assigned target's pickup location. -/
def lpCost (n : Nat) (tau : Nat → Nat → ℚ) (pos : Fin n → Nat) (tgt : Fin n → Request)
    (x : Fin n → Fin n → Bool) : ℚ :=
  ∑ a : Fin n, ∑ t : Fin n, if x a t then tau (pos a) (tgt t).pickup else 0

/-- The extraction loop (lines 136-141): for each agent, scan target ids in
order and keep the first with assignment value 1. -/
def chosenTarget (n : Nat) (x : Fin n → Fin n → Bool) (a : Fin n) : Option (Fin n) :=
  (List.finRange n).find? fun t => x a t

/-- The `assigned_targets` list built by the extraction loop. -/
def assigned_targets (n : Nat) (tgt : Fin n → Request) (x : Fin n → Fin n → Bool) :
    List Request :=
  (List.finRange n).filterMap fun a => (chosenTarget n x a).map tgt

theorem row_unique (n : Nat) (x : Fin n → Fin n → Bool) (h : lpRowOk n x) (a : Fin n) :
    ∃ t0, (x a t0 = true ∧ ∀ t, x a t = true → t = t0) := by
  have hs := h a
  rw [Finset.sum_boole] at hs
  have hc : (Finset.univ.filter fun t => x a t = true).card = 1 := by exact_mod_cast hs
  rw [Finset.card_eq_one] at hc
  obtain ⟨t0, ht0⟩ := hc
  refine ⟨t0, ?_, ?_⟩
  · have hm : t0 ∈ Finset.univ.filter fun t => x a t = true := by
      rw [ht0]; exact Finset.mem_singleton_self t0
    exact (Finset.mem_filter.mp hm).2
  · intro t ht
    have hm : t ∈ Finset.univ.filter fun t2 => x a t2 = true :=
      Finset.mem_filter.mpr ⟨Finset.mem_univ t, ht⟩
    rw [ht0] at hm
    exact Finset.mem_singleton.mp hm

theorem col_unique (n : Nat) (x : Fin n → Fin n → Bool) (h : lpColOk n x) (t : Fin n) :
    ∃ a0, (x a0 t = true ∧ ∀ a2, x a2 t = true → a2 = a0) :=
  row_unique n (fun t2 a2 => x a2 t2) h t

theorem chosenTarget_eq (n : Nat) (x : Fin n → Fin n → Bool) (a t0 : Fin n)
    (hx : x a t0 = true) (huniq : ∀ t, x a t = true → t = t0) :
    chosenTarget n x a = some t0 := by
  rw [chosenTarget]
  have hsome : ((List.finRange n).find? fun t => x a t).isSome := by
    rw [List.find?_isSome]
    exact ⟨t0, List.mem_finRange t0, hx⟩
  obtain ⟨t1, ht1⟩ := Option.isSome_iff_exists.mp hsome
  have hp := List.find?_some ht1
  rw [ht1, huniq t1 hp]

theorem filterMap_eq_map_of_forall {α β : Type} (g : α → Option β) (f2 : α → β) :
    ∀ l : List α, (∀ a ∈ l, g a = some (f2 a)) → l.filterMap g = l.map f2 := by
  intro l
  induction l with
  | nil => intro _; rfl
  | cons a l ih =>
    intro h
    simp [List.filterMap_cons, h a (List.mem_cons_self a l),
      ih fun b hb => h b (List.mem_cons_of_mem a hb)]

theorem lpCost_eq_of_unique (n : Nat) (tau : Nat → Nat → ℚ) (pos : Fin n → Nat)
    (tgt : Fin n → Request) (x : Fin n → Fin n → Bool) (f : Fin n → Fin n)
    (hf : ∀ a, x a (f a) = true ∧ ∀ t, x a t = true → t = f a) :
    lpCost n tau pos tgt x = ∑ a : Fin n, tau (pos a) (tgt (f a)).pickup := by
  rw [lpCost]
  apply Finset.sum_congr rfl
  intro a _
  have hrw : ∀ t : Fin n, (if x a t then tau (pos a) (tgt t).pickup else 0) =
      (if t = f a then tau (pos a) (tgt t).pickup else 0) := by
    intro t
    by_cases hx : x a t = true
    · rw [if_pos hx, if_pos ((hf a).2 t hx)]
    · rw [if_neg hx, if_neg ?_]
      intro hteq
      rw [hteq] at hx
      exact hx (hf a).1
  rw [Finset.sum_congr rfl fun t _ => hrw t,
    Finset.sum_ite_eq' Finset.univ (f a) fun t => tau (pos a) (tgt t).pickup]
  simp

theorem perm_feasible (n : Nat) (σ : Equiv.Perm (Fin n)) :
    lpFeasible n fun a t => decide (σ a = t) := by
  constructor
  · intro a
    simp only [decide_eq_true_eq]
    rw [Finset.sum_ite_eq Finset.univ (σ a) fun _ => (1 : ℤ)]
    simp
  · intro t
    simp only [decide_eq_true_eq]
    have hrw : ∀ a : Fin n, (if σ a = t then (1 : ℤ) else 0) =
        (if a = σ.symm t then (1 : ℤ) else 0) :=
      fun a => if_congr (σ.apply_eq_iff_eq_symm_apply) rfl rfl
    rw [Finset.sum_congr rfl fun a _ => hrw a,
      Finset.sum_ite_eq' Finset.univ (σ.symm t) fun _ => (1 : ℤ)]
    simp

theorem perm_cost (n : Nat) (tau : Nat → Nat → ℚ) (pos : Fin n → Nat)
    (tgt : Fin n → Request) (σ : Equiv.Perm (Fin n)) :
    lpCost n tau pos tgt (fun a t => decide (σ a = t)) =
      ∑ a : Fin n, tau (pos a) (tgt (σ a)).pickup := by
  rw [lpCost]
  apply Finset.sum_congr rfl
  intro a _
  simp only [decide_eq_true_eq]
  rw [Finset.sum_ite_eq Finset.univ (σ a) fun t => tau (pos a) (tgt t).pickup]
  simp

/-- C5: for `N` agents the sampler draws exactly `N` targets (with
replacement), and for any feasible optimal solution of the assignment LP
the extracted assignment gives every agent exactly one sampled target via a
bijection `f` on target indices (every sampled target claimed exactly once),
with total travel time no greater than along any other bijection. -/
theorem rebalance_lp (n : Nat) (tau : Nat → Nat → ℚ) (pos : Fin n → Nat)
    (pick : Fin n → Request) (x : Fin n → Fin n → Bool)
    (hfeas : lpFeasible n x)
    (hopt : ∀ y : Fin n → Fin n → Bool, lpFeasible n y →
      lpCost n tau pos pick x ≤ lpCost n tau pos pick y) :
    (possibleTargets n pick).length = n ∧
    (∃ f : Fin n → Fin n, Function.Bijective f ∧
      (∀ a : Fin n, chosenTarget n x a = some (f a)) ∧
      assigned_targets n pick x = (List.finRange n).map (fun a => pick (f a)) ∧
      (∀ σ : Equiv.Perm (Fin n),
        (∑ a : Fin n, tau (pos a) (pick (f a)).pickup) ≤
          (∑ a : Fin n, tau (pos a) (pick (σ a)).pickup))) := by
  have hex : ∀ a : Fin n, ∃ t0, (x a t0 = true ∧ ∀ t, x a t = true → t = t0) :=
    fun a => row_unique n x hfeas.1 a
  choose f hf using hex
  have hchosen : ∀ a, chosenTarget n x a = some (f a) :=
    fun a => chosenTarget_eq n x a (f a) (hf a).1 (hf a).2
  have hinj : Function.Injective f := by
    intro a b hab
    obtain ⟨a0, ha0x, ha0u⟩ := col_unique n x hfeas.2 (f a)
    have h1 : a = a0 := ha0u a (hf a).1
    have h2 : b = a0 := ha0u b (by rw [hab]; exact (hf b).1)
    rw [h1, h2]
  have hbij : Function.Bijective f := Finite.injective_iff_bijective.mp hinj
  refine ⟨by simp [possibleTargets], f, hbij, hchosen, ?_, ?_⟩
  · rw [assigned_targets]
    exact filterMap_eq_map_of_forall _ _ _ fun a _ => by rw [hchosen a]; rfl
  · intro σ
    have hcx := lpCost_eq_of_unique n tau pos pick x f hf
    have hcy := perm_cost n tau pos pick σ
    have hle := hopt (fun a t => decide (σ a = t)) (perm_feasible n σ)
    rw [hcx, hcy] at hle
    exact hle

/-- Concrete LP instance for the C5 witness: two agents, the identity
assignment matrix, zero travel cost. -/
def pickW : Fin 2 → Request :=
  fun t => { source := 3 + t.val, destination := 7, creation_time := 0, travel_time := 1 }

def posW : Fin 2 → Nat := fun a => a.val

def tauW : Nat → Nat → ℚ := fun _ _ => 0

def xW : Fin 2 → Fin 2 → Bool := fun a t => decide (a = t)

/-- C5 (witness): the theorem applied to the concrete 2×2 instance. -/
theorem rebalance_lp_witness :
    (possibleTargets 2 pickW).length = 2 ∧
    (∃ f : Fin 2 → Fin 2, Function.Bijective f ∧
      (∀ a : Fin 2, chosenTarget 2 xW a = some (f a)) ∧
      assigned_targets 2 pickW xW = (List.finRange 2).map (fun a => pickW (f a)) ∧
      (∀ σ : Equiv.Perm (Fin 2),
        (∑ a : Fin 2, tauW (posW a) (pickW (f a)).pickup) ≤
          (∑ a : Fin 2, tauW (posW a) (pickW (σ a)).pickup))) :=
  rebalance_lp 2 tauW posW pickW xW (by decide)
    (by intro y hy; simp [lpCost, tauW])

/-! `NYEnvironment.get_request_batch` (Environment.py lines 196-240).  The
file body is abstracted as a list of already-regex-matched lines: an epoch
header `Flows:e-_` or a request line `s,d,n.0` (the `assert` on line 229
makes any other line impossible).  Python's `int()` truncation of
`current_time / 3600` coincides with the floor since the clock is a
nonnegative epoch index times the epoch length. -/

inductive DataLine where
  | epochHeader : Nat → DataLine
  | requestLine : Nat → Nat → Nat → DataLine
deriving DecidableEq

def isEpochHeader : DataLine → Bool
  | .epochHeader _ => true
  | .requestLine _ _ _ => false

/-- The local state of the parsing loop.  `current_hour` is `none` as long
as the Python local variable `current_hour` has never been assigned —
reading it then raises `UnboundLocalError`. -/
structure ParseState where
  request_list : List Request
  is_first_epoch : Bool
  current_hour : Option Int
  current_time : ℚ
  batches : List (List Request)
deriving DecidableEq

inductive ParseFailure where
  | unboundCurrentHour : ParseFailure
deriving DecidableEq

/-- One iteration of the `for line in data_file.readlines()` loop
(Environment.py lines 212-237).  On an epoch header (except the very
first): compute the finished batch's hour from the clock, emit the batch if
that hour is in `[start_hour, end_hour)`, record `current_hour`, advance
the clock to `current_epoch * EPOCH_LENGTH` and clear the batch.  On a
request line: append `num_requests` copies of the request unless a zone is
ignored or source equals destination. -/
def processLine (e : Envt) (startH endH : Int) (st : ParseState) :
    DataLine → ParseState
  | .epochHeader current_epoch =>
    if st.is_first_epoch then { st with is_first_epoch := false }
    else
      let ch : Int := Rat.floor (st.current_time / 3600)
      { st with
          batches :=
            st.batches ++ (if startH ≤ ch ∧ ch < endH then [st.request_list] else []),
          current_hour := some ch,
          current_time := (current_epoch : ℚ) * e.EPOCH_LENGTH,
          request_list := [] }
  | .requestLine source destination num_requests =>
    if e.ignored_zones source = false ∧ e.ignored_zones destination = false ∧
        source ≠ destination then
      let req : Request :=
        { source := source, destination := destination,
          creation_time := st.current_time,
          travel_time := e.travel_time source destination }
      { st with request_list := st.request_list ++ List.replicate num_requests req }
    else st

/-- `get_request_batch`: run the loop over the body lines, then perform the
final flush (lines 239-240), which reads `current_hour` — an
`UnboundLocalError` if no epoch header after the first ever assigned it.
The generator's yields are collected into the returned batch list. -/
def get_request_batch (e : Envt) (startH endH : Int) (lines : List DataLine) :
    Except ParseFailure (List (List Request)) :=
  let st := lines.foldl (processLine e startH endH)
    { request_list := [], is_first_epoch := true, current_hour := none,
      current_time := e.current_time, batches := [] }
  match st.current_hour with
  | none => .error .unboundCurrentHour
  | some ch =>
    .ok (st.batches ++ (if startH ≤ ch ∧ ch < endH then [st.request_list] else []))

theorem processLine_hour_some (e : Envt) (startH endH : Int) (st : ParseState)
    (l : DataLine) (h : st.current_hour.isSome) :
    ((processLine e startH endH st l).current_hour).isSome := by
  cases l with
  | epochHeader ce =>
    rw [processLine]
    split
    · exact h
    · simp
  | requestLine s d n =>
    rw [processLine]
    split
    · exact h
    · exact h

theorem foldl_hour_some (e : Envt) (startH endH : Int) (lines : List DataLine) :
    ∀ st : ParseState, st.current_hour.isSome →
      (lines.foldl (processLine e startH endH) st).current_hour.isSome := by
  induction lines with
  | nil => intro st h; exact h
  | cons l rest ih =>
    intro st h
    rw [List.foldl_cons]
    exact ih _ (processLine_hour_some e startH endH st l h)

theorem foldl_hour_after_header (e : Envt) (startH endH : Int) (lines : List DataLine) :
    ∀ st : ParseState, st.is_first_epoch = false →
      1 ≤ lines.countP isEpochHeader →
      (lines.foldl (processLine e startH endH) st).current_hour.isSome := by
  induction lines with
  | nil => intro st _ hc; rw [List.countP_nil] at hc; omega
  | cons l rest ih =>
    intro st hfirst hc
    rw [List.foldl_cons]
    cases l with
    | epochHeader ce =>
      apply foldl_hour_some
      rw [processLine, if_neg (by rw [hfirst]; exact Bool.false_ne_true)]
      simp
    | requestLine s d n =>
      apply ih
      · rw [processLine]
        split
        · exact hfirst
        · exact hfirst
      · rw [List.countP_cons, show isEpochHeader (DataLine.requestLine s d n) = false from rfl,
          if_neg (by exact Bool.false_ne_true), Nat.add_zero] at hc
        exact hc

theorem foldl_two_headers (e : Envt) (startH endH : Int) (lines : List DataLine) :
    ∀ st : ParseState, 2 ≤ lines.countP isEpochHeader →
      (lines.foldl (processLine e startH endH) st).current_hour.isSome := by
  induction lines with
  | nil => intro st hc; rw [List.countP_nil] at hc; omega
  | cons l rest ih =>
    intro st hc
    rw [List.foldl_cons]
    cases l with
    | epochHeader ce =>
      by_cases hfirst : st.is_first_epoch = true
      · have h1 : (processLine e startH endH st (.epochHeader ce)).is_first_epoch = false := by
          rw [processLine, if_pos hfirst]
        have h2 : 1 ≤ rest.countP isEpochHeader := by
          rw [List.countP_cons, show isEpochHeader (DataLine.epochHeader ce) = true from rfl,
            if_pos rfl] at hc
          omega
        exact foldl_hour_after_header e startH endH rest _ h1 h2
      · apply foldl_hour_some
        rw [processLine, if_neg hfirst]
        simp
    | requestLine s d n =>
      apply ih
      rw [List.countP_cons, show isEpochHeader (DataLine.requestLine s d n) = false from rfl,
        if_neg (by exact Bool.false_ne_true), Nat.add_zero] at hc
      exact hc

/-- C9: a body with no epoch-header line leaves `current_hour` unassigned,
so the final range check fails with the undefined-variable error; any body
with at least two epoch headers makes the final check well-defined and the
parse terminate normally. -/
theorem request_batch_current_hour (e : Envt) (startH endH : Int) :
    get_request_batch e startH endH [DataLine.requestLine 1 2 1] =
      Except.error ParseFailure.unboundCurrentHour ∧
    (∀ lines : List DataLine, 2 ≤ lines.countP isEpochHeader →
      ∃ bs, get_request_batch e startH endH lines = Except.ok bs) := by
  constructor
  · rw [get_request_batch]
    have hnone : (processLine e startH endH
        { request_list := [], is_first_epoch := true, current_hour := none,
          current_time := e.current_time, batches := [] }
        (.requestLine 1 2 1)).current_hour = none := by
      rw [processLine]
      split
      · rfl
      · rfl
    rw [List.foldl_cons, List.foldl_nil, hnone]
  · intro lines hc
    rw [get_request_batch]
    have hsome := foldl_two_headers e startH endH lines
      { request_list := [], is_first_epoch := true, current_hour := none,
        current_time := e.current_time, batches := [] } hc
    obtain ⟨ch, hch⟩ := Option.isSome_iff_exists.mp hsome
    rw [hch]
    exact ⟨_, rfl⟩

/-- C9 (witness): a concrete two-header body parses successfully. -/
theorem request_batch_current_hour_witness :
    2 ≤ ([DataLine.epochHeader 0, DataLine.epochHeader 1] : List DataLine).countP
        isEpochHeader ∧
    ∃ bs, get_request_batch envSimple 0 24 [DataLine.epochHeader 0, DataLine.epochHeader 1] =
      Except.ok bs :=
  ⟨by decide,
   (request_batch_current_hour envSimple 0 24).2
     [DataLine.epochHeader 0, DataLine.epochHeader 1] (by decide)⟩

end NeurADP
